import Mathlib

/-!
v6d-fuse: the virtual node layer over a flat key space.

A shallow embedding of `v6dfs/v6dfs.go` and `backend/interface.go`.

* A Go `string` and a Go `[]byte` are finite sequences of bytes.  Both are
  embedded as `List Char`, one `Char` per byte; the conversion `[]byte(s)` is
  the identity.  The code only ever inspects the separator byte `/`.
* A `*fs.Inode` is an index into the arena `FS.nodes`; two references denote
  the same node exactly when the indices agree.
* `(value, error)` results of the adapters are `Option`s (`none` is a non-nil
  error); the cache store is threaded explicitly.
* `int64` arithmetic is `Int` arithmetic followed by `wrapInt64`.
* The per-node mutex is not modelled: every operation is one atomic step.
-/

namespace V6dFuse

/-- Go `string` / `[]byte`. -/
abbrev Str := List Char

/-! ## Fragments of the Go standard library used by the code -/

/-- Go `strings.HasPrefix(s, prefix)`. -/
def hasPrefix (s pre : Str) : Bool := pre.isPrefixOf s

/-- Go `strings.TrimPrefix(s, prefix)`: `s` without the leading `prefix`, or
`s` itself when it does not start with `prefix`. -/
def trimPrefix (s pre : Str) : Str :=
  if hasPrefix s pre then s.drop pre.length else s

/-- Go `strings.Split(s, sep)` for a one-byte separator: the pieces of `s`
between consecutive separators; always at least one piece. -/
def split (sep : Char) : Str → List Str
  | [] => [[]]
  | c :: cs =>
    if c = sep then [] :: split sep cs
    else
      match split sep cs with
      | [] => [[c]]
      | p :: ps => (c :: p) :: ps

/-- One step of the element scan of Go `path.Clean`: `out` holds the elements
kept so far, innermost last. -/
def cleanStep (rooted : Bool) (out : List Str) (e : Str) : List Str :=
  if e = [] ∨ e = ['.'] then out
  else if e = ['.', '.'] then
    match out.getLast? with
    | none => if rooted then out else out ++ [e]
    | some top => if top = ['.', '.'] then out ++ [e] else out.dropLast
  else out ++ [e]

/-- Go `path.Clean`: collapse repeated slashes, drop `.` elements, resolve
inner `..` elements, drop `..` at the start of a rooted path; the empty result
is `.`. -/
def pathClean (p : Str) : Str :=
  let rooted := hasPrefix p ['/']
  let out := (split '/' p).foldl (cleanStep rooted) []
  let body := List.intercalate ['/'] out
  let r := if rooted then '/' :: body else body
  if r = [] then ['.'] else r

/-- Go `path.Join(a, b)`: the non-empty leading elements joined by a slash,
then cleaned; the empty string when both are empty. -/
def pathJoin (a b : Str) : Str :=
  if a.length + b.length = 0 then []
  else if a = [] then pathClean b
  else pathClean (a ++ '/' :: b)

/-- The `int64` value denoted by the integer `x` after wrap-around. -/
def wrapInt64 (x : Int) : Int :=
  (x + 9223372036854775808) % 18446744073709551616 - 9223372036854775808

/-- Go slice expression `s[low:high]` on a slice used up to its length: `none`
is the run-time panic "slice bounds out of range", raised unless
`0 ≤ low ≤ high ≤ len`. -/
def sliceExpr (s : Str) (low high : Int) : Option Str :=
  if 0 ≤ low ∧ low ≤ high ∧ high ≤ (s.length : Int) then
    some ((s.take high.toNat).drop low.toNat)
  else none

/-! ## Error numbers and file types -/

/-- The errno `syscall.ENOENT`. -/
def ENOENT : Nat := 2

/-- The file type `syscall.S_IFDIR`. -/
def S_IFDIR : Nat := 16384

/-- The file type `syscall.S_IFREG`. -/
def S_IFREG : Nat := 32768

/-! ## `backend/interface.go` -/

/-- The interface `backend.Backend`. -/
structure Backend where
  Get : Str → Option Str
  Exists : Str → Option Bool
  List : Str → Option (List Str)

/-- The type `backend.MockBackend`: the map `Data`, as the sequence of its
entries in the order the map iteration visits them. -/
structure MockBackend where
  Data : List (Str × Str)

/-- The method `MockBackend.Get`. -/
def MockBackend.Get (b : MockBackend) (key : Str) : Option Str :=
  b.Data.lookup key

/-- The method `MockBackend.Exists`. -/
def MockBackend.Exists (b : MockBackend) (key : Str) : Option Bool :=
  some (b.Data.lookup key).isSome

/-- The method `MockBackend.List`. -/
def MockBackend.List (b : MockBackend) (pre : Str) : Option (List Str) :=
  some ((b.Data.map Prod.fst).filter (fun k => hasPrefix k pre))

/-- A `MockBackend` seen through the `Backend` interface. -/
def MockBackend.toBackend (b : MockBackend) : Backend :=
  { Get := b.Get, Exists := b.Exists, List := b.List }

/-- The constructor `NewMockBackendWithData`. -/
def NewMockBackendWithData (data : List (Str × Str)) : Backend :=
  MockBackend.toBackend { Data := data }

/-! ## `internal/cache.go` -/

/-- The interface `internal.Cache` over a store of type `σ`.  `Put` yields the
new store, the returned id and whether the returned error is non-nil; `Get`
yields the new store and the value, `none` for a non-nil error. -/
structure Cache (σ : Type) where
  Put : σ → Str → σ × Nat × Bool
  Get : σ → Nat → σ × Option Str

/-! ## `v6dfs/v6dfs.go` -/

/-- The struct `V6dNode` with the stable attributes and the children of its
embedded `fs.Inode`; children are references into the arena. -/
structure V6dNode where
  path : Str
  isDir : Bool
  cacheID : Nat
  Mode : Nat
  Ino : Nat
  children : List (Str × Nat)
  deriving DecidableEq, Repr

instance : Inhabited V6dNode := ⟨⟨[], false, 0, 0, 0, []⟩⟩

/-- The inode tree: the arena of nodes and the counter from which new inodes
take their number (the number itself plays no part in what follows). -/
structure FS where
  nodes : List V6dNode
  automaticIno : Nat
  deriving DecidableEq, Repr

/-- Dereference of a node reference. -/
def FS.node (s : FS) (n : Nat) : V6dNode := s.nodes.getD n default

/-- The constructor `NewV6dRoot`: the tree holding only the root directory
`/`, which is node `0`. -/
def NewV6dRoot : FS :=
  { nodes := [{ path := ['/'], isDir := true, cacheID := 0, Mode := S_IFDIR, Ino := 1,
                children := [] }],
    automaticIno := 2 }

/-- The method `V6dNode.subPath`. -/
def subPath (v : V6dNode) (name : Str) : Str := pathJoin v.path name

/-- The method `V6dNode.NewChild` on node `n` for a non-empty `name`: a fresh
inode for `subPath name` with the file type chosen by `isDir`, attached under
`name` unless that name is taken (`AddChild` without overwrite); the fresh
inode is returned either way.

The library call `AddChild` panics on an empty name.  That outcome is not part
of this embedding: `Readdir` skips an empty first part before it gets here,
and every result below that reaches `NewChild` through `Lookup` is stated for
`name ≠ []`, a name being one non-empty path component. -/
def NewChild (s : FS) (n : Nat) (name : Str) (isDir : Bool) : Nat × FS :=
  let v := s.node n
  let mode := if !isDir then S_IFREG else S_IFDIR
  let ops : V6dNode :=
    { path := subPath v name, isDir := isDir, cacheID := 0, Mode := mode,
      Ino := s.automaticIno, children := [] }
  let ch := s.nodes.length
  let ok := (v.children.lookup name).isNone
  let v' := if ok then { v with children := v.children ++ [(name, ch)] } else v
  (ch, { nodes := s.nodes.set n v' ++ [ops], automaticIno := s.automaticIno + 1 })

/-- The method `V6dNode.Lookup` on node `n`: the returned inode (if any), the
errno, and the tree afterwards. -/
def Lookup (B : Backend) (s : FS) (n : Nat) (name : Str) : Option Nat × Nat × FS :=
  let v := s.node n
  match B.Exists (subPath v name) with
  | none => (none, ENOENT, s)
  | some ex =>
    match v.children.lookup name with
    | some child => (some child, 0, s)
    | none =>
      if ex then
        let r := NewChild s n name false
        (some r.1, 0, r.2)
      else
        match B.List (subPath v name) with
        | none => (none, ENOENT, s)
        | some children =>
          if children.length = 0 then (none, ENOENT, s)
          else
            let r := NewChild s n name true
            (some r.1, 0, r.2)

/-- The function `getFirstPathPart`. -/
def getFirstPathPart (path : Str) : Str × Bool :=
  let clean := trimPrefix path ['/']
  let parts := split '/' clean
  if parts.length = 0 then ([], false)
  else
    let part := parts.headD []
    let isDir := if parts.length = 1 then true else false
    (part, isDir)

/-- The name `Readdir` on a node with path `p` derives from the key `key`:
the first result of `getFirstPathPart(strings.TrimPrefix(key, p))`. -/
def entryName (p key : Str) : Str := (getFirstPathPart (trimPrefix key p)).1

/-- The struct `fuse.DirEntry`. -/
structure DirEntry where
  Name : Str
  Ino : Nat
  Mode : Nat
  deriving DecidableEq, Repr

/-- The body of the `for` loop of `V6dNode.Readdir` on node `n` for one key
`child`. -/
def readdirStep (n : Nat) (acc : List DirEntry × FS) (child : Str) : List DirEntry × FS :=
  let r := acc.1
  let s := acc.2
  let v := s.node n
  let fp := getFirstPathPart (trimPrefix child v.path)
  if fp.1 = [] then (r, s)
  else
    match v.children.lookup fp.1 with
    | some existChild =>
      (r ++ [{ Name := fp.1, Ino := (s.node existChild).Ino, Mode := (s.node existChild).Mode }], s)
    | none =>
      let c := NewChild s n fp.1 fp.2
      (r ++ [{ Name := fp.1, Ino := (c.2.node c.1).Ino, Mode := (c.2.node c.1).Mode }], c.2)

/-- The method `V6dNode.Readdir` on node `n`: the entries of the returned
stream (if any), the errno, and the tree afterwards. -/
def Readdir (B : Backend) (s : FS) (n : Nat) : Option (List DirEntry) × Nat × FS :=
  match B.List (s.node n).path with
  | none => (none, ENOENT, s)
  | some children =>
    let r := children.foldl (readdirStep n) ([], s)
    (some r.1, 0, r.2)

/-- What a call of `V6dNode.Read` produces. -/
inductive ReadResult where
  /-- The call returns `fuse.ReadResultData(bs)` with errno `0`. -/
  | data (bs : Str)
  /-- The call returns no result and the errno `e`. -/
  | errno (e : Nat)
  /-- The call panics with "slice bounds out of range". -/
  | sliceOutOfRange
  deriving DecidableEq, Repr

/-- The tail of `V6dNode.Read` once `content` is fetched: clamp `end` and
slice. -/
def readSlice (content : Str) (destLen : Nat) (off : Int) : ReadResult :=
  let end0 := wrapInt64 (off + (destLen : Int))
  let end1 := if end0 > (content.length : Int) then (content.length : Int) else end0
  match sliceExpr content off end1 with
  | some bs => ReadResult.data bs
  | none => ReadResult.sliceOutOfRange

/-- The method `V6dNode.Read` on the node value `bn` with a destination buffer
of `destLen` bytes at offset `off`: the result, the node afterwards and the
cache store afterwards. -/
def Read {σ : Type} (B : Backend) (C : Cache σ) (st : σ) (bn : V6dNode) (destLen : Nat)
    (off : Int) : ReadResult × V6dNode × σ :=
  let hit : Option Str × Bool × σ :=
    if bn.cacheID ≠ 0 then
      let g := C.Get st bn.cacheID
      match g.2 with
      | some content => (some content, false, g.1)
      | none => (none, true, g.1)
    else (none, false, st)
  match hit.1 with
  | some content => (ReadResult.data content, bn, hit.2.2)
  | none =>
    let cacheErr := hit.2.1
    let st1 := hit.2.2
    match B.Get bn.path with
    | none => (ReadResult.errno ENOENT, bn, st1)
    | some content =>
      let p : V6dNode × σ :=
        if bn.cacheID = 0 ∨ cacheErr = true then
          let q := C.Put st1 content
          ({ bn with cacheID := q.2.1 }, q.1)
        else (bn, st1)
      (readSlice content destLen off, p.1, p.2)

/-! ## Test doubles -/

/-- A cache that keeps every stored value: handle `i + 1` names the `i`-th
value put. -/
def memCache : Cache (List Str) :=
  { Put := fun st value => (st ++ [value], st.length + 1, false),
    Get := fun st id => (st, if id = 0 then none else st.get? (id - 1)) }

/-- A cache whose store is unavailable: every `Put` and every `Get` fails. -/
def downCache : Cache Unit :=
  { Put := fun st _ => (st, 0, true),
    Get := fun st _ => (st, none) }

/-- The backend seeded by `main.go`. -/
def mainBackend : Backend :=
  NewMockBackendWithData [("/dir/file".toList, "Hello, World!".toList)]

/-- A backend holding the one object `/f` with content `abc`. -/
def abcBackend : Backend :=
  NewMockBackendWithData [("/f".toList, "abc".toList)]

/-- A backend where `/a` is an object and also a prefix of the key `/a/b`. -/
def abBackend : Backend :=
  NewMockBackendWithData [("/a".toList, "A".toList), ("/a/b".toList, "B".toList)]

/-- A backend with the keys `/dir/x` and `/dir/y/z`. -/
def xyBackend : Backend :=
  NewMockBackendWithData [("/dir/x".toList, "X".toList), ("/dir/y/z".toList, "Z".toList)]

/-- A backend with the keys `/dir/y/z` and `/dir/y/w`. -/
def yzwBackend : Backend :=
  NewMockBackendWithData [("/dir/y/z".toList, "Z".toList), ("/dir/y/w".toList, "W".toList)]

/-- A backend whose only key `/dir2/x` lies beside `/dir`, not below it. -/
def siblingBackend : Backend :=
  NewMockBackendWithData [("/dir2/x".toList, "X".toList)]

/-- A backend that is unreachable: every call returns an error. -/
def outageBackend : Backend :=
  { Get := fun _ => none, Exists := fun _ => none, List := fun _ => none }

/-- A file node for `path` holding the cache handle `cacheID`. -/
def fileNode (path : Str) (cacheID : Nat) : V6dNode :=
  { path := path, isDir := false, cacheID := cacheID, Mode := S_IFREG, Ino := 2, children := [] }

/-- The tree after `Lookup` of `dir` under the root: node `1` is `/dir`. -/
def dirTree (B : Backend) : FS := (Lookup B NewV6dRoot 0 "dir".toList).2.2

/-! ## Reading: offsets, the cache path and the backend path -/

theorem wrapInt64_of_range (x : Int) (h0 : -9223372036854775808 ≤ x)
    (h1 : x < 9223372036854775808) : wrapInt64 x = x := by
  unfold wrapInt64
  omega

/-- Past the end of the content the slice expression of `Read` is out of
range, whatever the buffer length. -/
theorem readSlice_past_end (content : Str) (destLen : Nat) (off : Int)
    (h : (content.length : Int) < off) :
    readSlice content destLen off = ReadResult.sliceOutOfRange := by
  unfold readSlice sliceExpr
  simp only
  split_ifs with h1 h2 h2
  · omega
  · rfl
  · omega
  · rfl

/-- Inside the content the tail of `Read` yields `content[off:end]` with
`end = min (off + destLen) (len content)`. -/
theorem readSlice_in_range (content : Str) (destLen : Nat) (off : Int)
    (h0 : 0 ≤ off) (hoff : off ≤ (content.length : Int))
    (hfit : off + (destLen : Int) < 9223372036854775808) :
    readSlice content destLen off
      = ReadResult.data
          ((content.take (min (off.toNat + destLen) content.length)).drop off.toNat) := by
  have hw : wrapInt64 (off + (destLen : Int)) = off + (destLen : Int) :=
    wrapInt64_of_range _ (by omega) (by omega)
  unfold readSlice sliceExpr
  simp only [hw]
  split_ifs with h1 h2 h2
  · have hmin : min (off.toNat + destLen) content.length = content.length := by omega
    rw [hmin, Int.toNat_ofNat]
  · omega
  · have hmin : min (off.toNat + destLen) content.length = (off + (destLen : Int)).toNat := by
      omega
    rw [hmin]
  · omega

/-- A node without a cache handle is served from the backend, and the handle
returned by `Cache.Put` is stored on the node whether or not `Put` failed. -/
theorem Read_no_handle {σ : Type} (B : Backend) (C : Cache σ) (st : σ) (bn : V6dNode)
    (destLen : Nat) (off : Int) (c : Str)
    (hid : bn.cacheID = 0) (hget : B.Get bn.path = some c) :
    Read B C st bn destLen off
      = (readSlice c destLen off, { bn with cacheID := (C.Put st c).2.1 }, (C.Put st c).1) := by
  simp [Read, hid, hget]

/-- A node whose cached blob cannot be fetched is served from the backend and
its handle is replaced by the one `Cache.Put` returns. -/
theorem Read_cache_failed {σ : Type} (B : Backend) (C : Cache σ) (st : σ) (bn : V6dNode)
    (destLen : Nat) (off : Int) (c : Str)
    (hid : bn.cacheID ≠ 0) (hmiss : (C.Get st bn.cacheID).2 = none)
    (hget : B.Get bn.path = some c) :
    Read B C st bn destLen off
      = (readSlice c destLen off,
         { bn with cacheID := (C.Put (C.Get st bn.cacheID).1 c).2.1 },
         (C.Put (C.Get st bn.cacheID).1 c).1) := by
  simp [Read, hid, hmiss, hget]

/-- A node whose cached blob is available is answered with the whole blob,
whatever the offset and the buffer length. -/
theorem Read_cache_hit {σ : Type} (B : Backend) (C : Cache σ) (st : σ) (bn : V6dNode)
    (destLen : Nat) (off : Int) (c : Str)
    (hid : bn.cacheID ≠ 0) (hhit : (C.Get st bn.cacheID).2 = some c) :
    Read B C st bn destLen off = (ReadResult.data c, bn, (C.Get st bn.cacheID).1) := by
  simp [Read, hid, hhit]

/-! ## The inode tree: `NewChild` -/

theorem NewChild_fst (s : FS) (n : Nat) (name : Str) (isDir : Bool) :
    (NewChild s n name isDir).1 = s.nodes.length := rfl

theorem NewChild_length (s : FS) (n : Nat) (name : Str) (isDir : Bool) :
    (NewChild s n name isDir).2.nodes.length = s.nodes.length + 1 := by
  simp [NewChild]

/-- The receiver after `NewChild`: the same node, with the new child attached
when the name was free. -/
theorem NewChild_node_parent (s : FS) (n : Nat) (name : Str) (isDir : Bool)
    (hn : n < s.nodes.length) :
    (NewChild s n name isDir).2.node n
      = if ((s.node n).children.lookup name).isNone then
          { s.node n with children := (s.node n).children ++ [(name, s.nodes.length)] }
        else s.node n := by
  simp only [NewChild, FS.node, List.getD_eq_getElem?_getD]
  rw [List.getElem?_append_left (by simpa using hn)]
  simp [hn]

/-- The fresh inode made by `NewChild`. -/
theorem NewChild_node_new (s : FS) (n : Nat) (name : Str) (isDir : Bool) :
    (NewChild s n name isDir).2.node (NewChild s n name isDir).1
      = { path := subPath (s.node n) name, isDir := isDir, cacheID := 0,
          Mode := if !isDir then S_IFREG else S_IFDIR,
          Ino := s.automaticIno, children := [] } := by
  simp only [NewChild, FS.node, List.getD_eq_getElem?_getD]
  rw [List.getElem?_append_right (by simp)]
  simp

theorem NewChild_path_parent (s : FS) (n : Nat) (name : Str) (isDir : Bool)
    (hn : n < s.nodes.length) :
    ((NewChild s n name isDir).2.node n).path = (s.node n).path := by
  rw [NewChild_node_parent s n name isDir hn]
  split_ifs <;> rfl

theorem lookup_append_new (cs : List (Str × Nat)) (name : Str) (k : Nat)
    (h : cs.lookup name = none) : (cs ++ [(name, k)]).lookup name = some k := by
  induction cs with
  | nil => simp [List.lookup]
  | cons c cs ih =>
    obtain ⟨a, b⟩ := c
    by_cases hab : name = a
    · subst hab
      simp [List.lookup] at h
    · have hne : (name == a) = false := by simpa using hab
      simp only [List.cons_append, List.lookup, hne] at h ⊢
      exact ih h

/-- `NewChild` under a free name: a fresh reference, one more node in the
arena, the requested kind, and the receiver now maps the name to it. -/
theorem NewChild_free (s : FS) (n : Nat) (name : Str) (isDir : Bool)
    (hn : n < s.nodes.length) (hfree : (s.node n).children.lookup name = none) :
    (NewChild s n name isDir).1 = s.nodes.length ∧
    (NewChild s n name isDir).2.nodes.length = s.nodes.length + 1 ∧
    ((NewChild s n name isDir).2.node s.nodes.length).isDir = isDir ∧
    ((NewChild s n name isDir).2.node s.nodes.length).Mode
      = (if !isDir then S_IFREG else S_IFDIR) ∧
    ((NewChild s n name isDir).2.node s.nodes.length).path = subPath (s.node n) name ∧
    ((NewChild s n name isDir).2.node n).children.lookup name = some s.nodes.length := by
  have hnew := NewChild_node_new s n name isDir
  rw [NewChild_fst] at hnew
  refine ⟨rfl, NewChild_length s n name isDir, ?_, ?_, ?_, ?_⟩
  · rw [hnew]
  · rw [hnew]
  · rw [hnew]
  · rw [NewChild_node_parent s n name isDir hn, hfree]
    simpa using lookup_append_new _ name _ hfree

/-! ## `Lookup` -/

/-- The three exits of `Lookup` that precede any child creation. -/
theorem Lookup_exists_error (B : Backend) (s : FS) (n : Nat) (name : Str)
    (herr : B.Exists (subPath (s.node n) name) = none) :
    Lookup B s n name = (none, ENOENT, s) := by
  simp [Lookup, herr]

theorem Lookup_existing_child (B : Backend) (s : FS) (n : Nat) (name : Str) (child : Nat)
    (ex : Bool) (hex : B.Exists (subPath (s.node n) name) = some ex)
    (hchild : (s.node n).children.lookup name = some child) :
    Lookup B s n name = (some child, 0, s) := by
  simp [Lookup, hex, hchild]

theorem Lookup_file (B : Backend) (s : FS) (n : Nat) (name : Str) (_hname : name ≠ [])
    (hex : B.Exists (subPath (s.node n) name) = some true)
    (hfree : (s.node n).children.lookup name = none) :
    Lookup B s n name
      = (some (NewChild s n name false).1, 0, (NewChild s n name false).2) := by
  simp [Lookup, hex, hfree]

theorem Lookup_directory (B : Backend) (s : FS) (n : Nat) (name : Str) (keys : List Str)
    (_hname : name ≠ [])
    (hex : B.Exists (subPath (s.node n) name) = some false)
    (hfree : (s.node n).children.lookup name = none)
    (hlist : B.List (subPath (s.node n) name) = some keys) (hne : keys ≠ []) :
    Lookup B s n name
      = (some (NewChild s n name true).1, 0, (NewChild s n name true).2) := by
  simp [Lookup, hex, hfree, hlist, hne]

theorem Lookup_not_found (B : Backend) (s : FS) (n : Nat) (name : Str)
    (hex : B.Exists (subPath (s.node n) name) = some false)
    (hfree : (s.node n).children.lookup name = none)
    (hlist : B.List (subPath (s.node n) name) = some []) :
    Lookup B s n name = (none, ENOENT, s) := by
  simp [Lookup, hex, hfree, hlist]

/-- A successful `Lookup` of a non-empty name leaves the name materialized as
the node it returned, so the same call on the resulting tree returns that node
again and changes nothing. -/
theorem Lookup_idempotent (B : Backend) (s : FS) (n : Nat) (name : Str) (id : Nat) (s1 : FS)
    (hname : name ≠ [])
    (hn : n < s.nodes.length) (h : Lookup B s n name = (some id, 0, s1)) :
    Lookup B s1 n name = (some id, 0, s1) := by
  cases hex : B.Exists (subPath (s.node n) name) with
  | none => rw [Lookup_exists_error B s n name hex] at h; simp at h
  | some ex =>
    cases hch : (s.node n).children.lookup name with
    | some child =>
      rw [Lookup_existing_child B s n name child ex hex hch] at h
      simp only [Prod.mk.injEq, Option.some.injEq, true_and] at h
      obtain ⟨rfl, rfl⟩ := h
      exact Lookup_existing_child B s n name child ex hex hch
    | none =>
      have key : ∀ d : Bool, Lookup B s n name
            = (some (NewChild s n name d).1, 0, (NewChild s n name d).2) →
          Lookup B s1 n name = (some id, 0, s1) := by
        intro d hd
        rw [hd] at h
        simp only [Prod.mk.injEq, Option.some.injEq, true_and] at h
        obtain ⟨rfl, rfl⟩ := h
        have hp := NewChild_path_parent s n name d hn
        have hc := (NewChild_free s n name d hn hch).2.2.2.2.2
        apply Lookup_existing_child B _ n name _ ex
        · unfold subPath at hex ⊢
          rw [hp]; exact hex
        · rw [NewChild_fst]; exact hc
      cases ex with
      | true => exact key false (Lookup_file B s n name hname hex hch)
      | false =>
        cases hl : B.List (subPath (s.node n) name) with
        | none => simp [Lookup, hex, hch, hl] at h
        | some keys =>
          by_cases hne : keys = []
          · subst hne
            rw [Lookup_not_found B s n name hex hch hl] at h; simp at h
          · exact key true (Lookup_directory B s n name keys hname hex hch hl hne)

/-! ## `getFirstPathPart` and `Readdir` -/

theorem split_ne_nil (sep : Char) (s : Str) : split sep s ≠ [] := by
  cases s with
  | nil => simp [split]
  | cons c cs =>
    unfold split
    split_ifs
    · simp
    · split <;> simp

/-- The first piece of a split: the input is that piece followed by nothing or
by a separator and the rest; the piece holds no separator. -/
theorem split_head (sep : Char) (s : Str) :
    ∃ rest, s = (split sep s).headD [] ++ rest ∧ (rest = [] ∨ ∃ t, rest = sep :: t) ∧
      sep ∉ (split sep s).headD [] := by
  induction s with
  | nil => exact ⟨[], by simp [split]⟩
  | cons c cs ih =>
    by_cases hc : c = sep
    · subst hc
      exact ⟨c :: cs, by simp [split]⟩
    · obtain ⟨rest, h1, h2, h3⟩ := ih
      cases hs : split sep cs with
      | nil => exact absurd hs (split_ne_nil sep cs)
      | cons p ps =>
        rw [hs] at h1 h3
        simp only [List.headD_cons] at h1 h3
        refine ⟨rest, ?_, h2, ?_⟩
        · simp only [split, hc, if_false, hs, List.headD_cons, List.cons_append]
          rw [← h1]
        · simp only [split, hc, if_false, hs, List.headD_cons, List.mem_cons, not_or]
          exact ⟨fun h => hc h.symm, h3⟩

/-- The name returned by `getFirstPathPart` is the first piece of the path
without its leading slash. -/
theorem getFirstPathPart_fst (path : Str) :
    (getFirstPathPart path).1 = (split '/' (trimPrefix path ['/'])).headD [] := by
  have h := split_ne_nil '/' (trimPrefix path ['/'])
  have hl : (split '/' (trimPrefix path ['/'])).length ≠ 0 := by
    simpa [List.length_eq_zero] using h
  simp [getFirstPathPart, hl]

/-- The flag returned by `getFirstPathPart` is set exactly when the path
without its leading slash is a single piece. -/
theorem getFirstPathPart_snd (path : Str) :
    (getFirstPathPart path).2 = decide ((split '/' (trimPrefix path ['/'])).length = 1) := by
  have h := split_ne_nil '/' (trimPrefix path ['/'])
  have hl : (split '/' (trimPrefix path ['/'])).length ≠ 0 := by
    simpa [List.length_eq_zero] using h
  by_cases h1 : (split '/' (trimPrefix path ['/'])).length = 1 <;>
    simp [getFirstPathPart, hl, h1]

/-- One key of the listing, as `Readdir` treats it: the receiver stays a node
of the tree with the same path, and the entries grow by the key's first part
unless that part is empty. -/
theorem readdirStep_spec (n : Nat) (acc : List DirEntry × FS) (child : Str)
    (hn : n < acc.2.nodes.length) :
    n < (readdirStep n acc child).2.nodes.length ∧
    ((readdirStep n acc child).2.node n).path = (acc.2.node n).path ∧
    (readdirStep n acc child).1.map DirEntry.Name
      = acc.1.map DirEntry.Name
        ++ (if entryName (acc.2.node n).path child = [] then []
            else [entryName (acc.2.node n).path child]) := by
  unfold readdirStep entryName
  by_cases he : (getFirstPathPart (trimPrefix child (acc.2.node n).path)).1 = []
  · simp [he, hn]
  · cases hl : (acc.2.node n).children.lookup
        (getFirstPathPart (trimPrefix child (acc.2.node n).path)).1 with
    | some ex => simp [he, hl, hn]
    | none =>
      simp only [he, if_false, hl, List.map_append, List.map_cons, List.map_nil]
      refine ⟨?_, ?_, trivial⟩
      · rw [NewChild_length]; omega
      · exact NewChild_path_parent _ _ _ _ hn

/-- The loop of `Readdir`: one entry per key whose first part is not empty, in
the order of the listing. -/
theorem readdirLoop_names (n : Nat) (keys : List Str) (acc : List DirEntry × FS)
    (hn : n < acc.2.nodes.length) :
    (keys.foldl (readdirStep n) acc).1.map DirEntry.Name
      = acc.1.map DirEntry.Name
        ++ (keys.map (entryName (acc.2.node n).path)).filter (fun x => decide (x ≠ [])) := by
  induction keys generalizing acc with
  | nil => simp
  | cons k ks ih =>
    obtain ⟨h1, h2, h3⟩ := readdirStep_spec n acc k hn
    rw [List.foldl_cons, ih _ h1, h2, h3]
    by_cases he : entryName (acc.2.node n).path k = [] <;> simp [he]

/-- The names reported by `Readdir` on a node of the tree. -/
theorem Readdir_names (B : Backend) (s : FS) (n : Nat) (keys : List Str)
    (hn : n < s.nodes.length) (hl : B.List (s.node n).path = some keys) :
    ∃ es, (Readdir B s n).1 = some es ∧ (Readdir B s n).2.1 = 0 ∧
      es.map DirEntry.Name
        = (keys.map (entryName (s.node n).path)).filter (fun x => decide (x ≠ [])) := by
  have h := readdirLoop_names n keys ([], s) hn
  simp only [List.map_nil, List.nil_append] at h
  refine ⟨(keys.foldl (readdirStep n) ([], s)).1, ?_, ?_, h⟩
  · simp [Readdir, hl]
  · simp [Readdir, hl]

/-! ## Claims about `Read` -/

/-- Past the end of the content a node without a cache handle makes `Read`
panic, after the handle returned by `Cache.Put` was stored. -/
theorem Read_no_handle_past_end {σ : Type} (B : Backend) (C : Cache σ) (st : σ) (bn : V6dNode)
    (destLen : Nat) (off : Int) (c : Str)
    (hid : bn.cacheID = 0) (hget : B.Get bn.path = some c) (hoff : (c.length : Int) < off) :
    Read B C st bn destLen off
      = (ReadResult.sliceOutOfRange, { bn with cacheID := (C.Put st c).2.1 },
         (C.Put st c).1) := by
  rw [Read_no_handle B C st bn destLen off c hid hget, readSlice_past_end c destLen off hoff]

/-- C1 (code defect): for the content `abc` of length 3 held by a node without
a cache handle, `Read` at offset 3 returns the empty result with success, but
`Read` at offset 4 with a one-byte buffer does not return an empty result: the
slice expression `content[4:3]` is out of range and the call panics. -/
theorem Read_offset_beyond_length_out_of_range :
    (Read abcBackend memCache [] (fileNode "/f".toList 0) 1 3).1 = ReadResult.data [] ∧
    (Read abcBackend memCache [] (fileNode "/f".toList 0) 1 4).1
      = ReadResult.sliceOutOfRange := by
  decide

/-- C4 (code defect): with the content `Hello, World!` and a cache that keeps
what it is given, the first `Read` at offset 0 with a five-byte buffer returns
`Hello` and stores the handle 1 returned by `Cache.Put`; the second `Read` with
the same offset and length takes the cache path and returns all thirteen bytes,
which differ from the bytes of the first. -/
theorem Read_second_read_returns_whole_blob :
    Read mainBackend memCache [] (fileNode "/dir/file".toList 0) 5 0
      = (ReadResult.data "Hello".toList, fileNode "/dir/file".toList 1,
         ["Hello, World!".toList]) ∧
    (memCache.Put [] "Hello, World!".toList).2 = (1, false) ∧
    (memCache.Get ["Hello, World!".toList] 1).2 = some "Hello, World!".toList ∧
    Read mainBackend memCache ["Hello, World!".toList] (fileNode "/dir/file".toList 1) 5 0
      = (ReadResult.data "Hello, World!".toList, fileNode "/dir/file".toList 1,
         ["Hello, World!".toList]) ∧
    (Read mainBackend memCache ["Hello, World!".toList] (fileNode "/dir/file".toList 1) 5 0).1
      ≠ (Read mainBackend memCache [] (fileNode "/dir/file".toList 0) 5 0).1 := by
  decide

/-- C5: for a file node without a cache handle whose `Backend.Get` returns `c`,
every offset `0 ≤ off ≤ len c` and every buffer length `destLen` (with
`off + destLen` representable as an `int64`), `Read` succeeds with exactly
`c[off : min (off + destLen) (len c)]`, for every cache, whether its `Put`
succeeds or fails. -/
theorem Read_backend_slice {σ : Type} (B : Backend) (C : Cache σ) (st : σ) (bn : V6dNode)
    (destLen : Nat) (off : Int) (c : Str)
    (hid : bn.cacheID = 0) (hget : B.Get bn.path = some c)
    (h0 : 0 ≤ off) (hoff : off ≤ (c.length : Int))
    (hfit : off + (destLen : Int) < 9223372036854775808) :
    (Read B C st bn destLen off).1
      = ReadResult.data ((c.take (min (off.toNat + destLen) c.length)).drop off.toNat) := by
  rw [Read_no_handle B C st bn destLen off c hid hget]
  exact readSlice_in_range c destLen off h0 hoff hfit

theorem Read_backend_slice_witness :
    (Read mainBackend downCache () (fileNode "/dir/file".toList 0) 5 0).1
      = ReadResult.data "Hello".toList :=
  (Read_backend_slice mainBackend downCache () (fileNode "/dir/file".toList 0) 5 0
    "Hello, World!".toList (by decide) (by decide) (by decide) (by decide) (by decide)).trans
    (by decide)

/-- In range, a node whose cached blob cannot be fetched is served the slice
of the backend content, `Cache.Put` is applied to that content and the handle
it returns replaces the stale one. -/
theorem Read_cache_failed_in_range {σ : Type} (B : Backend) (C : Cache σ) (st : σ)
    (bn : V6dNode) (destLen : Nat) (off : Int) (c : Str)
    (hid : bn.cacheID ≠ 0) (hmiss : (C.Get st bn.cacheID).2 = none)
    (hget : B.Get bn.path = some c)
    (h0 : 0 ≤ off) (hoff : off ≤ (c.length : Int))
    (hfit : off + (destLen : Int) < 9223372036854775808) :
    Read B C st bn destLen off
      = (ReadResult.data ((c.take (min (off.toNat + destLen) c.length)).drop off.toNat),
         { bn with cacheID := (C.Put (C.Get st bn.cacheID).1 c).2.1 },
         (C.Put (C.Get st bn.cacheID).1 c).1) := by
  rw [Read_cache_failed B C st bn destLen off c hid hmiss hget,
    readSlice_in_range c destLen off h0 hoff hfit]

/-- C6 (code defect): a node holds the stale handle 7, `Cache.Get` of it fails
and `Backend.Get` returns `abc`.  `Read` falls back to the backend, applies
`Cache.Put` to `abc` and stores the returned handle 1 on the node; at offset 1
it returns `bc`, but at offset 4 it does not return success: the slice
expression `content[4:3]` is out of range and the call panics. -/
theorem Read_cache_miss_beyond_length_out_of_range :
    (memCache.Get [] 7).2 = none ∧
    Read abcBackend memCache [] (fileNode "/f".toList 7) 1 4
      = (ReadResult.sliceOutOfRange, fileNode "/f".toList 1, ["abc".toList]) ∧
    Read abcBackend memCache [] (fileNode "/f".toList 7) 2 1
      = (ReadResult.data "bc".toList, fileNode "/f".toList 1, ["abc".toList]) := by
  decide

/-! ## Claims about `Lookup` -/

/-- C7: for a node `n` of the tree and a name, one non-empty path component,
not yet materialized under it, if `Backend.Exists(subPath name)` answers true
then `Lookup` succeeds with a new node: a fresh reference, recorded under
`name` in the children of `n`, with `isDir = false`, mode `S_IFREG` and path
`subPath name`; `Backend.List` is not consulted, so this holds also when the
name is a listable prefix.  The empty name is left out: there the library call
`AddChild` made by `NewChild` panics. -/
theorem Lookup_exists_gives_file (B : Backend) (s : FS) (n : Nat) (name : Str)
    (hname : name ≠ [])
    (hn : n < s.nodes.length)
    (hfree : (s.node n).children.lookup name = none)
    (hex : B.Exists (subPath (s.node n) name) = some true) :
    (Lookup B s n name).1 = some s.nodes.length ∧
    (Lookup B s n name).2.1 = 0 ∧
    (Lookup B s n name).2.2.nodes.length = s.nodes.length + 1 ∧
    ((Lookup B s n name).2.2.node s.nodes.length).isDir = false ∧
    ((Lookup B s n name).2.2.node s.nodes.length).Mode = S_IFREG ∧
    ((Lookup B s n name).2.2.node s.nodes.length).path = subPath (s.node n) name ∧
    ((Lookup B s n name).2.2.node n).children.lookup name = some s.nodes.length := by
  rw [Lookup_file B s n name hname hex hfree]
  obtain ⟨h1, h2, h3, h4, h5, h6⟩ := NewChild_free s n name false hn hfree
  exact ⟨congrArg some h1, rfl, h2, h3, h4, h5, h6⟩

theorem Lookup_exists_gives_file_witness :
    abBackend.Exists "/a".toList = some true ∧
    abBackend.List "/a".toList = some ["/a".toList, "/a/b".toList] ∧
    (Lookup abBackend NewV6dRoot 0 "a".toList).1 = some 1 ∧
    (Lookup abBackend NewV6dRoot 0 "a".toList).2.1 = 0 ∧
    ((Lookup abBackend NewV6dRoot 0 "a".toList).2.2.node 1).isDir = false ∧
    ((Lookup abBackend NewV6dRoot 0 "a".toList).2.2.node 1).Mode = S_IFREG :=
  have h := Lookup_exists_gives_file abBackend NewV6dRoot 0 "a".toList
    (by decide) (by decide) (by decide) (by decide)
  ⟨by decide, by decide, h.1, h.2.1, h.2.2.2.1, h.2.2.2.2.1⟩

/-- C8 (counterexample): `a` is materialized under the root as node 1, then
the backend becomes unreachable; `Lookup` of `a` fails with `ENOENT` and
returns no node, because `Backend.Exists` is probed before the children are
inspected. -/
theorem Lookup_exists_error_hides_child :
    ((Lookup abBackend NewV6dRoot 0 "a".toList).2.2.node 0).children.lookup "a".toList
      = some 1 ∧
    Lookup outageBackend (Lookup abBackend NewV6dRoot 0 "a".toList).2.2 0 "a".toList
      = (none, ENOENT, (Lookup abBackend NewV6dRoot 0 "a".toList).2.2) := by
  decide

/-- C8 (amended): for a name already materialized as a child of the node,
whenever `Backend.Exists(subPath name)` returns without an error, whatever its
answer and whatever `Backend.List` would answer, `Lookup` returns that existing
child with success and leaves the tree as it was, so no node is created; a
second `Lookup` of the name on the resulting tree returns the same node. -/
theorem Lookup_materialized_child (B : Backend) (s : FS) (n : Nat) (name : Str) (child : Nat)
    (ex : Bool)
    (hchild : (s.node n).children.lookup name = some child)
    (hex : B.Exists (subPath (s.node n) name) = some ex) :
    Lookup B s n name = (some child, 0, s) ∧
    Lookup B (Lookup B s n name).2.2 n name = (some child, 0, s) := by
  have h := Lookup_existing_child B s n name child ex hex hchild
  rw [h]
  exact ⟨rfl, h⟩

theorem Lookup_materialized_child_witness :
    Lookup siblingBackend (Lookup abBackend NewV6dRoot 0 "a".toList).2.2 0 "a".toList
      = (some 1, 0, (Lookup abBackend NewV6dRoot 0 "a".toList).2.2) :=
  (Lookup_materialized_child siblingBackend (Lookup abBackend NewV6dRoot 0 "a".toList).2.2 0
    "a".toList 1 false (by decide) (by decide)).1

/-- C9 (counterexample): with the single key `/dir2/x`, `Readdir` of `/dir`
materializes the child `2`; afterwards `Backend.Exists(/dir/2)` is false and
`Backend.List(/dir/2)` is empty, yet `Lookup` of `2` under `/dir` succeeds and
returns that child. -/
theorem Lookup_not_found_but_materialized :
    subPath ((Readdir siblingBackend (dirTree siblingBackend) 1).2.2.node 1) "2".toList
      = "/dir/2".toList ∧
    siblingBackend.Exists "/dir/2".toList = some false ∧
    siblingBackend.List "/dir/2".toList = some [] ∧
    Lookup siblingBackend (Readdir siblingBackend (dirTree siblingBackend) 1).2.2 1 "2".toList
      = (some 2, 0, (Readdir siblingBackend (dirTree siblingBackend) 1).2.2) := by
  decide

/-- C9 (amended): for a name not yet materialized under the node, if
`Backend.Exists(subPath name)` is false and `Backend.List(subPath name)` is
empty then `Lookup` fails with `ENOENT`, returns no node and leaves the tree,
hence the children of the node, unchanged. -/
theorem Lookup_absent_name_not_found (B : Backend) (s : FS) (n : Nat) (name : Str)
    (hfree : (s.node n).children.lookup name = none)
    (hex : B.Exists (subPath (s.node n) name) = some false)
    (hlist : B.List (subPath (s.node n) name) = some []) :
    Lookup B s n name = (none, ENOENT, s) ∧
    ((Lookup B s n name).2.2.node n).children = (s.node n).children := by
  rw [Lookup_not_found B s n name hex hfree hlist]
  exact ⟨rfl, rfl⟩

theorem Lookup_absent_name_not_found_witness :
    Lookup mainBackend NewV6dRoot 0 "nope".toList = (none, ENOENT, NewV6dRoot) :=
  (Lookup_absent_name_not_found mainBackend NewV6dRoot 0 "nope".toList
    (by decide) (by decide) (by decide)).1

/-! ## Claims about `Readdir` -/

theorem hasPrefix_iff (s pre : Str) : hasPrefix s pre = true ↔ ∃ r, s = pre ++ r := by
  unfold hasPrefix
  rw [ List.isPrefixOf_iff_prefix]
  constructor
  · rintro ⟨r, hr⟩
    exact ⟨r, hr.symm⟩
  · rintro ⟨r, hr⟩
    exact ⟨r, hr.symm⟩

theorem trimPrefix_append (pre r : Str) : trimPrefix (pre ++ r) pre = r := by
  have h : hasPrefix (pre ++ r) pre = true := (hasPrefix_iff _ _).2 ⟨r, rfl⟩
  simp [trimPrefix, h]

/-- The shape of a key from which `Readdir` on a node with path `p` derives a
name: the key is `p`, an optional slash, the name, and then nothing or a slash
and more. -/
theorem entryName_origin (p k : Str) (hk : hasPrefix k p = true) :
    ('/' ∉ entryName p k) ∧
    ∃ rest, (k = p ++ entryName p k ++ rest ∨ k = p ++ '/' :: (entryName p k ++ rest)) ∧
      (rest = [] ∨ ∃ t, rest = '/' :: t) := by
  obtain ⟨r, rfl⟩ := (hasPrefix_iff k p).1 hk
  unfold entryName
  rw [getFirstPathPart_fst, trimPrefix_append]
  by_cases hs : hasPrefix r ['/'] = true
  · obtain ⟨q, rfl⟩ := (hasPrefix_iff r ['/']).1 hs
    have hq : trimPrefix (['/'] ++ q) ['/'] = q := trimPrefix_append ['/'] q
    rw [hq]
    obtain ⟨rest, h1, h2, h3⟩ := split_head '/' q
    refine ⟨h3, rest, Or.inr ?_, h2⟩
    rw [← h1]
    rfl
  · have hq : trimPrefix r ['/'] = r := by simp [trimPrefix, hs]
    rw [hq]
    obtain ⟨rest, h1, h2, h3⟩ := split_head '/' r
    refine ⟨h3, rest, Or.inl ?_, h2⟩
    rw [List.append_assoc, ← h1]

/-- C2 (code defect): with the keys `/dir/x` and `/dir/y/z` and no child of
`/dir` materialized, `Readdir` of `/dir` reports `x`, whose remainder is a
single segment, with the directory mode and `y`, whose remainder has a further
segment, with the regular-file mode, and materializes them so: the flag
computed by `getFirstPathPart` is set for a single segment. -/
theorem Readdir_kinds_swapped :
    getFirstPathPart "/x".toList = ("x".toList, true) ∧
    getFirstPathPart "/y/z".toList = ("y".toList, false) ∧
    ((dirTree xyBackend).node 1).path = "/dir".toList ∧
    ((dirTree xyBackend).node 1).children = [] ∧
    (Readdir xyBackend (dirTree xyBackend) 1).1.map (List.map (fun e => (e.Name, e.Mode)))
      = some [("x".toList, S_IFDIR), ("y".toList, S_IFREG)] ∧
    ((Readdir xyBackend (dirTree xyBackend) 1).2.2.node 1).children
      = [("x".toList, 2), ("y".toList, 3)] ∧
    ((Readdir xyBackend (dirTree xyBackend) 1).2.2.node 2).isDir = true ∧
    ((Readdir xyBackend (dirTree xyBackend) 1).2.2.node 3).isDir = false := by
  decide

/-- C3 (counterexample): the keys `/dir/y/z` and `/dir/y/w` share the first
segment `y`, the only distinct one, and `Readdir` of `/dir` returns two
entries, both named `y`. -/
theorem Readdir_shared_segment_listed_twice :
    yzwBackend.List ((dirTree yzwBackend).node 1).path
      = some ["/dir/y/z".toList, "/dir/y/w".toList] ∧
    (Readdir yzwBackend (dirTree yzwBackend) 1).1.map (List.map DirEntry.Name)
      = some ["y".toList, "y".toList] ∧
    (["/dir/y/z".toList, "/dir/y/w".toList].map (entryName "/dir".toList)).dedup
      = ["y".toList] := by
  decide

/-- C3 (amended): for a node of the tree and the keys returned by
`Backend.List(node.path)`, `Readdir` succeeds and its entries are, in the order
of the listing, one entry per key whose first segment is not empty, named by
that segment: every non-empty first segment is reported as many times as there
are keys that have it, so at least once, and the number of entries is the
number of keys with a non-empty first segment. -/
theorem Readdir_one_entry_per_key (B : Backend) (s : FS) (n : Nat) (keys : List Str)
    (hn : n < s.nodes.length) (hl : B.List (s.node n).path = some keys) :
    ∃ es, (Readdir B s n).1 = some es ∧ (Readdir B s n).2.1 = 0 ∧
      es.map DirEntry.Name
        = (keys.map (entryName (s.node n).path)).filter (fun x => decide (x ≠ [])) ∧
      es.length
        = ((keys.map (entryName (s.node n).path)).filter (fun x => decide (x ≠ []))).length ∧
      ∀ x : Str, x ≠ [] →
        (es.map DirEntry.Name).count x = (keys.map (entryName (s.node n).path)).count x ∧
        (x ∈ es.map DirEntry.Name ↔ x ∈ keys.map (entryName (s.node n).path)) := by
  obtain ⟨es, hes, h2, hnames⟩ := Readdir_names B s n keys hn hl
  refine ⟨es, hes, h2, hnames, ?_, ?_⟩
  · rw [← hnames, List.length_map]
  · intro x hx
    rw [hnames]
    refine ⟨List.count_filter (by simpa using hx), ?_⟩
    simp [List.mem_filter, hx]

theorem Readdir_one_entry_per_key_witness :
    ∃ es, (Readdir yzwBackend (dirTree yzwBackend) 1).1 = some es ∧
      (Readdir yzwBackend (dirTree yzwBackend) 1).2.1 = 0 ∧
      es.map DirEntry.Name
        = (["/dir/y/z".toList, "/dir/y/w".toList].map
            (entryName ((dirTree yzwBackend).node 1).path)).filter (fun x => decide (x ≠ [])) ∧
      es.length
        = ((["/dir/y/z".toList, "/dir/y/w".toList].map
            (entryName ((dirTree yzwBackend).node 1).path)).filter
              (fun x => decide (x ≠ []))).length ∧
      ∀ x : Str, x ≠ [] →
        (es.map DirEntry.Name).count x
          = (["/dir/y/z".toList, "/dir/y/w".toList].map
              (entryName ((dirTree yzwBackend).node 1).path)).count x ∧
        (x ∈ es.map DirEntry.Name ↔
          x ∈ ["/dir/y/z".toList, "/dir/y/w".toList].map
            (entryName ((dirTree yzwBackend).node 1).path)) :=
  Readdir_one_entry_per_key yzwBackend (dirTree yzwBackend) 1
    ["/dir/y/z".toList, "/dir/y/w".toList] (by decide) (by decide)

/-- C10 (counterexample): over the `MockBackend` holding only `/dir2/x`,
`Readdir` of `/dir` returns one entry, named `2`, although no key equals
`/dir/2` and no key begins with `/dir/2/`. -/
theorem Readdir_sibling_key_contributes_entry :
    ((dirTree siblingBackend).node 1).path = "/dir".toList ∧
    (Readdir siblingBackend (dirTree siblingBackend) 1).1.map (List.map DirEntry.Name)
      = some ["2".toList] ∧
    pathJoin "/dir".toList "2".toList = "/dir/2".toList ∧
    siblingBackend.Get "/dir/2".toList = none ∧
    siblingBackend.List "/dir/2/".toList = some [] := by
  decide

/-- C10 (amended): over a `MockBackend` with any data, `Readdir` on a node of
the tree with path `p` succeeds, and every entry name is non-empty, holds no
slash, and comes from a stored key that consists of `p`, an optional slash,
the name, and then either nothing or a slash followed by more; `p` is matched
as a string prefix of the key, not as a path prefix. -/
theorem Readdir_mock_entry_origin (data : List (Str × Str)) (s : FS) (n : Nat)
    (hn : n < s.nodes.length) :
    ∃ es, (Readdir (NewMockBackendWithData data) s n).1 = some es ∧
      ∀ e ∈ es, e.Name ≠ [] ∧ '/' ∉ e.Name ∧
        ∃ k ∈ data.map Prod.fst, ∃ rest,
          (k = (s.node n).path ++ e.Name ++ rest ∨
            k = (s.node n).path ++ '/' :: (e.Name ++ rest)) ∧
          (rest = [] ∨ ∃ t, rest = '/' :: t) := by
  have hl : (NewMockBackendWithData data).List (s.node n).path
      = some ((data.map Prod.fst).filter (fun k => hasPrefix k (s.node n).path)) := rfl
  obtain ⟨es, hes, -, hnames⟩ := Readdir_names _ s n _ hn hl
  refine ⟨es, hes, ?_⟩
  intro e he
  have hmem : e.Name ∈ es.map DirEntry.Name := List.mem_map_of_mem _ he
  rw [hnames, List.mem_filter, List.mem_map] at hmem
  obtain ⟨⟨k, hk, hke⟩, hne⟩ := hmem
  rw [List.mem_filter] at hk
  obtain ⟨hslash, rest, hshape, hrest⟩ := entryName_origin (s.node n).path k hk.2
  rw [hke] at hslash hshape
  exact ⟨by simpa using hne, hslash, k, hk.1, rest, hshape, hrest⟩

theorem Readdir_mock_entry_origin_witness :
    ∃ es, (Readdir (NewMockBackendWithData [("/dir2/x".toList, "X".toList)])
        (dirTree siblingBackend) 1).1 = some es ∧
      ∀ e ∈ es, e.Name ≠ [] ∧ '/' ∉ e.Name ∧
        ∃ k ∈ [("/dir2/x".toList, "X".toList)].map Prod.fst, ∃ rest,
          (k = ((dirTree siblingBackend).node 1).path ++ e.Name ++ rest ∨
            k = ((dirTree siblingBackend).node 1).path ++ '/' :: (e.Name ++ rest)) ∧
          (rest = [] ∨ ∃ t, rest = '/' :: t) :=
  Readdir_mock_entry_origin [("/dir2/x".toList, "X".toList)] (dirTree siblingBackend) 1
    (by decide)

end V6dFuse
